import Mathlib

/-!
Shallow embedding of the EDDAC Fabric chaincode pair (`sc1_public.js`, `sc2_attr.js`).

Conventions of the embedding:
* JavaScript `BigInt` values are embedded as `Int`.  JS `%` on `BigInt` is
  truncated division, embedded as `Int.tmod`.
* Vector elements cross the chaincode boundary as decimal strings and are
  re-parsed with `BigInt(...)`; since `BigInt ∘ toString` is the identity on
  `BigInt`, the embedding keeps them as `Int` throughout.
* The Fabric world state is embedded as a partial map from typed composite keys
  to typed record values.  Composite keys built with `createCompositeKey` from
  distinct namespaces (or distinct part lists) are distinct strings, which the
  inductive key type `LKey` captures by constructor injectivity.
* Throwing JS functions are embedded in `Except String`; a Fabric transaction
  that throws commits no writes, so erroring operations return no ledger.
-/

namespace EDDAC

/-- The shared prime modulus `PRIME_P` from `sc1_public.js` / `sc2_attr.js`. -/
def PRIME_P : Int := 21888242871839275222246405745257275088548364400416034343698204186575808495617

/-- `modP` from `sc1_public.js` / `sc2_attr.js`:
`const r = x % PRIME_P; return r >= 0n ? r : r + PRIME_P;`
(JS BigInt `%` is truncated division, i.e. `Int.tmod`). -/
def modP (x : Int) : Int :=
  let r := Int.tmod x PRIME_P
  if 0 ≤ r then r else r + PRIME_P

theorem PRIME_P_pos : (0 : Int) < PRIME_P := by decide

/-- Truncated remainder of a negated dividend is the negated remainder. -/
theorem tmod_neg_dividend (x b : Int) : Int.tmod (-x) b = -Int.tmod x b := by
  rw [Int.tmod_def, Int.tmod_def, Int.neg_tdiv]
  ring

/-- `modP` agrees with Euclidean remainder by the (positive) prime. -/
theorem modP_eq_emod (x : Int) : modP x = x % PRIME_P := by
  have hp : (0 : Int) < PRIME_P := PRIME_P_pos
  have hcong : Int.tmod x PRIME_P % PRIME_P = x % PRIME_P := by
    have hd : Int.tmod x PRIME_P = x + PRIME_P * (-(Int.tdiv x PRIME_P)) := by
      rw [Int.tmod_def]; ring
    rw [hd, Int.add_mul_emod_self_left]
  have hub : Int.tmod x PRIME_P < PRIME_P := Int.tmod_lt_of_pos x hp
  have hlb : -PRIME_P < Int.tmod x PRIME_P := by
    have h1 : Int.tmod (-x) PRIME_P < PRIME_P := Int.tmod_lt_of_pos (-x) hp
    rw [tmod_neg_dividend] at h1
    omega
  unfold modP
  by_cases h : 0 ≤ Int.tmod x PRIME_P
  · simp only [h, if_pos]
    rw [← hcong, Int.emod_eq_of_lt h hub]
  · simp only [h, if_neg, not_false_iff]
    have h0 : 0 ≤ Int.tmod x PRIME_P + PRIME_P := by omega
    have h1 : Int.tmod x PRIME_P + PRIME_P < PRIME_P := by omega
    have h2 : (Int.tmod x PRIME_P + PRIME_P) % PRIME_P = x % PRIME_P := by
      rw [Int.add_emod_self, hcong]
    rw [← h2, Int.emod_eq_of_lt h0 h1]

theorem modP_nonneg (x : Int) : 0 ≤ modP x := by
  rw [modP_eq_emod]
  exact Int.emod_nonneg x (by decide)

theorem modP_lt (x : Int) : modP x < PRIME_P := by
  rw [modP_eq_emod]
  exact Int.emod_lt_of_pos x PRIME_P_pos

theorem modP_modP (x : Int) : modP (modP x) = modP x := by
  rw [modP_eq_emod, modP_eq_emod, Int.emod_emod_of_dvd x dvd_rfl]

theorem modP_mul_left (a b : Int) : modP (modP a * b) = modP (a * b) := by
  simp only [modP_eq_emod]
  rw [Int.mul_emod, Int.emod_emod_of_dvd a dvd_rfl, ← Int.mul_emod]

theorem modP_mul_right (a b : Int) : modP (a * modP b) = modP (a * b) := by
  simp only [modP_eq_emod]
  rw [Int.mul_emod, Int.emod_emod_of_dvd b dvd_rfl, ← Int.mul_emod]

theorem modP_add_left (a b : Int) : modP (modP a + b) = modP (a + b) := by
  simp only [modP_eq_emod]
  rw [Int.add_emod, Int.emod_emod_of_dvd a dvd_rfl, ← Int.add_emod]

theorem modP_add_right (a b : Int) : modP (a + modP b) = modP (a + b) := by
  simp only [modP_eq_emod]
  rw [Int.add_emod, Int.emod_emod_of_dvd b dvd_rfl, ← Int.add_emod]

/-- `innerProductMod` from `sc1_public.js`: throws on length mismatch, otherwise
folds `sum = modP(sum + modP(modP(S[i]) * modP(P[i])))` over the index range.
The simultaneous indexed loop is embedded as a fold over `S.zip P`, which visits
exactly the pairs `(S[i], P[i])` when the lengths are equal. -/
def innerProductMod (S P : List Int) : Except String Int :=
  if S.length ≠ P.length then
    .error s!"Inner product length mismatch: S={S.length}, P={P.length}"
  else
    .ok ((S.zip P).foldl (fun sum sp => modP (sum + modP (modP sp.1 * modP sp.2))) 0)

/-- `DATA` record written by `CreateVec` (`sc1_public.js`). -/
structure DataMeta where
  objectId : String
  ownerId : String
  policyVector : List Int
  c0 : String
  addressCipher : String
  ctKeyPart : String
deriving DecidableEq

/-- `S` record written by `StoreUserVec` (`sc1_public.js`) and the `USERVEC`
record written by `CreateUserVec` (`sc2_attr.js`). -/
structure UserVecRec where
  userId : String
  S : List Int
deriving DecidableEq

/-- The access decision record built by `DecTest` (`sc1_public.js`). -/
structure AccessRecord where
  objectId : String
  requesterId : String
  allowed : Bool
  innerProduct : Int
  txId : String
  timestamp : String
deriving DecidableEq

/-- Typed composite keys.  Each constructor is one `createCompositeKey`
namespace; constructor injectivity embeds the fact that composite keys from
distinct namespaces or distinct part lists are distinct ledger keys. -/
inductive LKey where
  | sys (name : String)
  | pkch (index : String)
  | data (objectId : String)
  | svec (userId : String)
  | uservec (userId : String)
  | attr (userId category : String)
  | user (userId : String)
  | access (objectId requesterId txId : String)
  | accessLast (objectId requesterId : String)
deriving DecidableEq

/-- Typed ledger values (the JSON documents `putState` serialises). -/
inductive LVal where
  | blob (s : String)
  | dataMeta (m : DataMeta)
  | userVec (r : UserVecRec)
  | accessRec (a : AccessRecord)
deriving DecidableEq

/-- The world state: a partial map from composite keys to stored records. -/
def Ledger : Type := LKey → Option LVal

/-- `ctx.stub.putState`. -/
def putState (st : Ledger) (k : LKey) (v : LVal) : Ledger :=
  fun q => if q = k then some v else st q

/-- `CreateVec` from `sc1_public.js` (alias `SetPolicyVecTx`): normalizes every
element of the submitted policy vector with `modP` and stores the `DATA` record;
returns the stored record. -/
def CreateVec (st : Ledger) (objectId ownerId : String) (policyVector : List Int)
    (c0 addressCipher ctKeyPart : String) : Ledger × DataMeta :=
  let P_norm := policyVector.map modP
  let meta : DataMeta :=
    { objectId := objectId, ownerId := ownerId, policyVector := P_norm,
      c0 := c0, addressCipher := addressCipher, ctKeyPart := ctKeyPart }
  (putState st (.data objectId) (.dataMeta meta), meta)

/-- `GetDataMeta` from `sc1_public.js`: throws when no `DATA` record exists for
the object. -/
def GetDataMeta (st : Ledger) (objectId : String) : Except String DataMeta :=
  match st (.data objectId) with
  | some (.dataMeta m) => .ok m
  | _ => .error s!"No DATA meta for object {objectId}"

/-- `StoreUserVec` from `sc1_public.js`: normalizes every element of the
submitted vector with `modP` and stores the `S` record; returns the record. -/
def StoreUserVec (st : Ledger) (userId : String) (sVector : List Int) :
    Ledger × UserVecRec :=
  let S_norm := sVector.map modP
  let r : UserVecRec := { userId := userId, S := S_norm }
  (putState st (.svec userId) (.userVec r), r)

/-- `ReadUserVec` from `sc1_public.js`: throws when no `S` record exists for
the user. -/
def ReadUserVec (st : Ledger) (userId : String) : Except String UserVecRec :=
  match st (.svec userId) with
  | some (.userVec r) => .ok r
  | _ => .error s!"No S vector for user {userId}"

/-- `DecTest` from `sc1_public.js` (alias `DecTestTx`).  Reads the requester's
`S` vector and the object's policy vector, computes the inner product mod p,
derives the verdict, and writes the access record twice: once under the
append-only `ACCESS~objectId~requesterId~txId` key and once under the
`ACCESS_LAST~objectId~requesterId` pointer key.  The transaction id and the
deterministic ISO timestamp are supplied by the execution environment
(`ctx.stub.getTxID()` / `ctx.stub.getTxTimestamp()`), so both are parameters. -/
def DecTest (st : Ledger) (objectId requesterId txId tsISO : String) :
    Except String (Ledger × AccessRecord) :=
  match ReadUserVec st requesterId with
  | .error e => .error e
  | .ok Srec =>
    match GetDataMeta st objectId with
    | .error e => .error e
    | .ok meta =>
      match innerProductMod Srec.S meta.policyVector with
      | .error e => .error e
      | .ok ip =>
        let allowed := ip == 0
        let access : AccessRecord :=
          { objectId := objectId, requesterId := requesterId, allowed := allowed,
            innerProduct := ip, txId := txId, timestamp := tsISO }
        let st1 := putState st (.access objectId requesterId txId) (.accessRec access)
        let st2 := putState st1 (.accessLast objectId requesterId) (.accessRec access)
        .ok (st2, access)

/-- `ATTR` record written by `CreateHidAtt` (`sc2_attr.js`).  `chValue` is the
decimal string `CH(A_ij)`, parsed with `BigInt` inside `CreateUserVec`, so it is
embedded as `Int`; `rValue` stays an opaque string (never parsed). -/
structure HiddenAttr where
  userId : String
  category : String
  chValue : Int
  rValue : String
  aaenId : String
deriving DecidableEq

/-- Stable insertion of one attribute into a sorted run, placing the new
element before the first existing element it is ≤-related to. -/
def insertSorted (le : HiddenAttr → HiddenAttr → Bool) (a : HiddenAttr) :
    List HiddenAttr → List HiddenAttr
  | [] => [a]
  | b :: bs => if le a b then a :: b :: bs else b :: insertSorted le a bs

/-- `attrs.sort((a, b) => cmp(a.category, b.category))` from `sc2_attr.js`,
embedded as a stable sort (ECMAScript `Array.prototype.sort` is stable)
parametric in the string comparator: the source's comparator is
`String.prototype.localeCompare`, whose order depends on the host's
locale/ICU configuration, so it is a parameter of the embedding
(`le s t` means `cmp(s, t) <= 0`). -/
def sortAttrs (le : String → String → Bool) (attrs : List HiddenAttr) :
    List HiddenAttr :=
  attrs.foldr (insertSorted (fun a b => le a.category b.category)) []

/-- The inner double loop of `CreateUserVec`:
`for i in 0..n { for j in i+1..n { push(modP(ch[i] * ch[j])) } }`,
embedded structurally: the `i = 0` pass pairs the head with every later
element in order, then the loop continues on the tail. -/
def pairwiseProducts : List Int → List Int
  | [] => []
  | x :: xs => xs.map (fun y => modP (x * y)) ++ pairwiseProducts xs

/-- `CreateUserVec` from `sc2_attr.js` (alias `TransAttToVecTx`).  `attrs` is
the result of the `GetHiddenAttributes` prefix scan for `userId` (the scan's
order is ledger-defined; the function re-sorts by category).  Builds
`S = [prodAll, ...pairwise, ...singles, 1]`, stores it under the `USERVEC`
key, and returns the record. -/
def CreateUserVec (le : String → String → Bool) (st : Ledger) (userId : String)
    (attrs : List HiddenAttr) : Except String (Ledger × UserVecRec) :=
  if attrs.isEmpty then
    .error s!"No hidden attributes for user {userId}"
  else
    let sorted := sortAttrs le attrs
    let chValues := sorted.map (fun a => modP a.chValue)
    let prodAll := chValues.foldl (fun acc v => modP (acc * v)) 1
    let pairwise := pairwiseProducts chValues
    let S := prodAll :: (pairwise ++ (chValues ++ [1]))
    let r : UserVecRec := { userId := userId, S := S }
    .ok (putState st (.uservec userId) (.userVec r), r)

/-- Lexicographic comparison of character sequences by code point. -/
def charListLe : List Char → List Char → Bool
  | [], _ => true
  | _ :: _, [] => false
  | a :: as, b :: bs =>
    if a.toNat < b.toNat then true
    else if b.toNat < a.toNat then false
    else charListLe as bs

/-- Ordinary lexicographic string order (code-unit / code-point order; the two
agree on the Basic Multilingual Plane), as required by the specification for
the canonical attribute index. -/
def lexLe (s t : String) : Bool := charListLe s.data t.data

/-- Model of `String.prototype.localeCompare` under the default (ICU root)
collation, restricted to ASCII-letter strings: characters are compared first
case-insensitively by letter (primary strength), then lowercase before
uppercase (tertiary strength), position by position.  Under this collation
`"a" < "B"`, whereas code-unit order has `"B" < "a"`. -/
def icuKeyLe : List (Nat × Nat) → List (Nat × Nat) → Bool
  | [], _ => true
  | _ :: _, [] => false
  | a :: as, b :: bs =>
    if a.1 < b.1 then true
    else if b.1 < a.1 then false
    else if a.2 < b.2 then true
    else if b.2 < a.2 then false
    else icuKeyLe as bs

/-- Collation key of one character: primary = lowercased code point,
tertiary = 1 for uppercase, 0 otherwise. -/
def icuCharKey (c : Char) : Nat × Nat :=
  (c.toLower.toNat, if c.isUpper then 1 else 0)

/-- `localeCompare(s, t) <= 0` under the modelled ICU root collation. -/
def icuRootLe (s t : String) : Bool :=
  icuKeyLe (s.data.map icuCharKey) (t.data.map icuCharKey)

/-- The specification's description of the pairwise block, written from its
words: "the pairwise products `ch[i]*ch[j]` for all `i<j` in index order
(i.e., `(0,1),(0,2),...,(0,n-1),(1,2),...`)".  Used only to compare against
the source-derived `pairwiseProducts`. -/
def specPairs (ch : List Int) : List Int :=
  (List.range ch.length).flatMap fun i =>
    (List.range ch.length).filterMap fun j =>
      if i < j then some (modP (ch.getD i 0 * ch.getD j 0)) else none

/-- The specification's description of the comparison vector, written from its
words: leading field product of all `ch[i]`, then the pairwise block, then the
singles in index order, then the trailing constant `1`. -/
def specCompareVector (ch : List Int) : List Int :=
  modP ch.prod :: (specPairs ch ++ (ch ++ [1]))

theorem filterMap_congr_fn {α β : Type} {f g : α → Option β} (l : List α)
    (h : ∀ a, f a = g a) : l.filterMap f = l.filterMap g := by
  induction l with
  | nil => rfl
  | cons a as ih => rw [List.filterMap_cons, List.filterMap_cons, h a, ih]

theorem filterMap_some_fn {α β : Type} (f : α → β) (l : List α) :
    l.filterMap (fun a => some (f a)) = l.map f := by
  induction l with
  | nil => rfl
  | cons a as ih => simp only [List.filterMap_cons, List.map_cons, ih]

theorem flatMap_congr_fn {α β : Type} {f g : α → List β} (l : List α)
    (h : ∀ a, f a = g a) : l.flatMap f = l.flatMap g := by
  induction l with
  | nil => rfl
  | cons a as ih => rw [List.flatMap_cons, List.flatMap_cons, h a, ih]

theorem map_getD_range (f : Int → Int) (l : List Int) :
    (List.range l.length).map (fun k => f (l.getD k 0)) = l.map f := by
  induction l with
  | nil => simp
  | cons x xs ih =>
    rw [List.length_cons, List.range_succ_eq_map, List.map_cons, List.map_map,
      List.map_cons]
    refine congrArg₂ (· :: ·) rfl ?_
    rw [← ih]
    exact List.map_congr_left fun k _ => rfl

/-- The double loop of `CreateUserVec` produces exactly the pairwise block the
specification describes, in the same order. -/
theorem specPairs_eq_pairwiseProducts (ch : List Int) :
    specPairs ch = pairwiseProducts ch := by
  induction ch with
  | nil => simp [specPairs, pairwiseProducts]
  | cons x xs ih =>
    rw [pairwiseProducts]
    unfold specPairs
    rw [List.length_cons, List.range_succ_eq_map, List.flatMap_cons]
    refine congrArg₂ (· ++ ·) ?_ ?_
    · rw [List.filterMap_cons_none (by simp), List.filterMap_map]
      have h1 : ∀ k : Nat,
          ((fun j => if 0 < j then some (modP ((x :: xs).getD 0 0 * (x :: xs).getD j 0))
            else none) ∘ Nat.succ) k
          = some ((fun y => modP (x * y)) (xs.getD k 0)) := by
        intro k
        simp [Function.comp]
      rw [filterMap_congr_fn _ h1, filterMap_some_fn]
      exact map_getD_range (fun y => modP (x * y)) xs
    · rw [List.flatMap_map]
      unfold specPairs at ih
      rw [← ih]
      refine flatMap_congr_fn _ ?_
      intro i
      rw [List.filterMap_cons_none (by simp), List.filterMap_map]
      refine filterMap_congr_fn _ ?_
      intro j
      simp [Function.comp, Nat.succ_lt_succ_iff]

/-- The running-product loop of `CreateUserVec` computes the reduced product. -/
theorem foldl_modP_mul (l : List Int) (a : Int) :
    l.foldl (fun acc v => modP (acc * v)) (modP a) = modP (a * l.prod) := by
  induction l generalizing a with
  | nil => simp [List.foldl_nil]
  | cons x xs ih =>
    simp only [List.foldl_cons, List.prod_cons]
    rw [modP_mul_left, ih (a * x), mul_assoc]

theorem prodAll_eq (l : List Int) :
    l.foldl (fun acc v => modP (acc * v)) 1 = modP l.prod := by
  have h1 : (1 : Int) = modP 1 := by decide
  rw [h1, foldl_modP_mul, one_mul]

/-- The pairwise block has `C(n, 2)` elements. -/
theorem pairwiseProducts_length (l : List Int) :
    (pairwiseProducts l).length = l.length.choose 2 := by
  induction l with
  | nil => simp [pairwiseProducts]
  | cons x xs ih =>
    rw [pairwiseProducts, List.length_append, List.length_map, ih,
      List.length_cons, Nat.choose_succ_succ, Nat.choose_one_right]

/-- The accumulation loop of `innerProductMod` computes the reduced sum of the
reduced termwise products. -/
theorem innerFold_eq (l : List (Int × Int)) (a : Int) :
    l.foldl (fun sum sp => modP (sum + modP (modP sp.1 * modP sp.2))) (modP a)
      = modP (a + (l.map (fun sp => modP sp.1 * modP sp.2)).sum) := by
  induction l generalizing a with
  | nil => simp [List.foldl_nil]
  | cons x xs ih =>
    simp only [List.foldl_cons, List.map_cons, List.sum_cons]
    rw [modP_add_right, modP_add_left, ih (a + modP x.1 * modP x.2), add_assoc]

/-- On equal-length vectors `innerProductMod` returns the specification's
`sum_i normalize(S[i]) * normalize(P[i]) mod p`. -/
theorem innerProductMod_eq (S P : List Int) (h : S.length = P.length) :
    innerProductMod S P
      = .ok (modP (List.zipWith (fun s p => modP s * modP p) S P).sum) := by
  unfold innerProductMod
  rw [if_neg (by omega)]
  refine congrArg Except.ok ?_
  have h0 : (0 : Int) = modP 0 := by decide
  rw [h0, innerFold_eq, zero_add]
  refine congrArg modP (congrArg List.sum ?_)
  rw [List.zip_eq_zipWith, List.map_zipWith]

instance exceptDecEq {ε α : Type} [DecidableEq ε] [DecidableEq α] :
    DecidableEq (Except ε α) := fun a b =>
  match a, b with
  | .error e, .error f =>
    if h : e = f then isTrue (by rw [h])
    else isFalse (fun hh => h (Except.error.inj hh))
  | .error _, .ok _ => isFalse (fun hh => Except.noConfusion hh)
  | .ok _, .error _ => isFalse (fun hh => Except.noConfusion hh)
  | .ok x, .ok y =>
    if h : x = y then isTrue (by rw [h])
    else isFalse (fun hh => h (Except.ok.inj hh))

/-- The access record `DecTest` builds from stored vectors `S`, `P` and the
environment-supplied transaction id and timestamp. -/
def decRecord (objectId requesterId txId tsISO : String) (S P : List Int) :
    AccessRecord :=
  let ip := modP (List.zipWith (fun s p => modP s * modP p) S P).sum
  { objectId := objectId, requesterId := requesterId, allowed := ip == 0,
    innerProduct := ip, txId := txId, timestamp := tsISO }

/-- Explicit success computation of `DecTest`: with both vectors stored and of
equal length it returns the decision record and the state carrying both the
history entry and the latest-decision pointer. -/
theorem DecTest_ok (st : Ledger) (objectId requesterId txId tsISO : String)
    (S P : List Int) (m : DataMeta)
    (hS : st (.svec requesterId) = some (.userVec ⟨requesterId, S⟩))
    (hm : st (.data objectId) = some (.dataMeta m))
    (hP : m.policyVector = P)
    (hlen : S.length = P.length) :
    DecTest st objectId requesterId txId tsISO =
      .ok (putState
            (putState st (.access objectId requesterId txId)
              (.accessRec (decRecord objectId requesterId txId tsISO S P)))
            (.accessLast objectId requesterId)
            (.accessRec (decRecord objectId requesterId txId tsISO S P)),
          decRecord objectId requesterId txId tsISO S P) := by
  have h1 : ReadUserVec st requesterId = .ok ⟨requesterId, S⟩ := by
    rw [ReadUserVec, hS]
  have h2 : GetDataMeta st objectId = .ok m := by
    rw [GetDataMeta, hm]
  have h3 : innerProductMod S m.policyVector
      = .ok (modP (List.zipWith (fun s p => modP s * modP p) S P).sum) := by
    rw [hP]
    exact innerProductMod_eq S P hlen
  simp only [DecTest, h1, h2, h3, decRecord]

/-- Shared concrete world state used as a witness input: a stored user vector
`S = [1, 2]` for `"user1"` and a stored policy vector `P = [1, 1]` for
`"obj1"`. -/
def exMeta : DataMeta :=
  { objectId := "obj1", ownerId := "own1", policyVector := [1, 1],
    c0 := "c0", addressCipher := "ac", ctKeyPart := "ck" }

def exSt : Ledger :=
  putState (putState (fun _ => none) (.svec "user1") (.userVec ⟨"user1", [1, 2]⟩))
    (.data "obj1") (.dataMeta exMeta)

/-- Shared concrete world state with empty stored vectors for both sides. -/
def exMetaEmpty : DataMeta :=
  { objectId := "obj1", ownerId := "own1", policyVector := [],
    c0 := "c0", addressCipher := "ac", ctKeyPart := "ck" }

def exStEmpty : Ledger :=
  putState (putState (fun _ => none) (.svec "user1") (.userVec ⟨"user1", []⟩))
    (.data "obj1") (.dataMeta exMetaEmpty)

/-- C8: for every integer `x` (including negative `x`), `normalize` (`modP`)
satisfies `normalize(normalize(x)) == normalize(x)` and
`0 <= normalize(x) < p`. -/
theorem C8_normalize_idempotent_and_ranged (x : Int) :
    modP (modP x) = modP x ∧ 0 ≤ modP x ∧ modP x < PRIME_P :=
  ⟨modP_modP x, modP_nonneg x, modP_lt x⟩

/-- C6: for every objectId and raw vector, `CreateVec` followed by
`GetDataMeta` for the same objectId returns the stored record, whose elements
are `normalize` of the raw inputs (canonical residues), not the raw inputs. -/
theorem C6_policy_vector_roundtrip (st : Ledger) (objectId ownerId : String)
    (rawVector : List Int) (c0 addressCipher ctKeyPart : String) :
    GetDataMeta
        (CreateVec st objectId ownerId rawVector c0 addressCipher ctKeyPart).1
        objectId
      = .ok (CreateVec st objectId ownerId rawVector c0 addressCipher ctKeyPart).2
    ∧ (CreateVec st objectId ownerId rawVector c0 addressCipher ctKeyPart).2.policyVector
      = rawVector.map modP := by
  refine ⟨?_, rfl⟩
  simp [CreateVec, GetDataMeta, putState]

/-- C9: `StoreUserVec` normalizes every element with `modP` before persisting,
so the stored `S` record (as later read back by `ReadUserVec`) holds only
canonical residues in `[0, p)`. -/
theorem C9_stored_user_vector_canonical (st : Ledger) (userId : String)
    (raw : List Int) :
    (StoreUserVec st userId raw).2.S = raw.map modP
    ∧ ReadUserVec (StoreUserVec st userId raw).1 userId
        = .ok (StoreUserVec st userId raw).2
    ∧ ∀ x ∈ (StoreUserVec st userId raw).2.S, 0 ≤ x ∧ x < PRIME_P := by
  refine ⟨rfl, ?_, ?_⟩
  · simp [StoreUserVec, ReadUserVec, putState]
  · intro x hx
    simp only [StoreUserVec, List.mem_map] at hx
    obtain ⟨y, _, rfl⟩ := hx
    exact ⟨modP_nonneg y, modP_lt y⟩

/-- C1: for stored vectors `S`, `P` of equal length, `DecTest` computes
`ip = sum_i normalize(S[i]) * normalize(P[i]) mod p`, sets
`allowed = (ip == 0)`, and the access record it returns and persists (both
the history entry and the latest pointer) carries exactly this flag and
value. -/
theorem C1_decide_inner_product_and_record (st : Ledger)
    (objectId requesterId txId tsISO : String) (S P : List Int) (m : DataMeta)
    (hS : st (.svec requesterId) = some (.userVec ⟨requesterId, S⟩))
    (hm : st (.data objectId) = some (.dataMeta m))
    (hP : m.policyVector = P)
    (hlen : S.length = P.length) :
    ∃ (st' : Ledger) (a : AccessRecord),
      DecTest st objectId requesterId txId tsISO = .ok (st', a)
      ∧ a.innerProduct = modP (List.zipWith (fun s p => modP s * modP p) S P).sum
      ∧ a.allowed = (a.innerProduct == 0)
      ∧ a.objectId = objectId ∧ a.requesterId = requesterId
      ∧ a.txId = txId ∧ a.timestamp = tsISO
      ∧ st' (.access objectId requesterId txId) = some (.accessRec a)
      ∧ st' (.accessLast objectId requesterId) = some (.accessRec a) := by
  refine ⟨_, _, DecTest_ok st objectId requesterId txId tsISO S P m hS hm hP hlen,
    rfl, rfl, rfl, rfl, rfl, rfl, ?_, ?_⟩
  · simp [putState]
  · simp [putState]

/-- Witness for C1 at the concrete state `exSt` (`S = [1, 2]`, `P = [1, 1]`). -/
theorem C1_witness :
    exSt (LKey.svec "user1") = some (.userVec ⟨"user1", [1, 2]⟩)
    ∧ exSt (LKey.data "obj1") = some (.dataMeta exMeta)
    ∧ exMeta.policyVector = [1, 1]
    ∧ ([1, 2] : List Int).length = ([1, 1] : List Int).length
    ∧ (∃ (st' : Ledger) (a : AccessRecord),
        DecTest exSt "obj1" "user1" "tx1" "ts1" = .ok (st', a)
        ∧ a.innerProduct
            = modP (List.zipWith (fun s p => modP s * modP p) [1, 2] [1, 1]).sum
        ∧ a.allowed = (a.innerProduct == 0)
        ∧ a.objectId = "obj1" ∧ a.requesterId = "user1"
        ∧ a.txId = "tx1" ∧ a.timestamp = "ts1"
        ∧ st' (.access "obj1" "user1" "tx1") = some (.accessRec a)
        ∧ st' (.accessLast "obj1" "user1") = some (.accessRec a)) :=
  ⟨by decide, by decide, by decide, by decide,
    C1_decide_inner_product_and_record exSt "obj1" "user1" "tx1" "ts1"
      [1, 2] [1, 1] exMeta (by decide) (by decide) (by decide) (by decide)⟩

/-- C5: with stored vectors of different lengths, `DecTest` fails with the
dimension-mismatch error.  In this embedding (as on Fabric, where a throwing
transaction commits nothing) an erroring `DecTest` returns no successor state:
no access record is appended and the latest pointer is untouched; the throw
happens in `innerProductMod`, before either `putState`. -/
theorem C5_dimension_mismatch_fails (st : Ledger)
    (objectId requesterId txId tsISO : String) (S P : List Int) (m : DataMeta)
    (hS : st (.svec requesterId) = some (.userVec ⟨requesterId, S⟩))
    (hm : st (.data objectId) = some (.dataMeta m))
    (hP : m.policyVector = P)
    (hlen : S.length ≠ P.length) :
    DecTest st objectId requesterId txId tsISO
      = .error s!"Inner product length mismatch: S={S.length}, P={P.length}" := by
  have h1 : ReadUserVec st requesterId = .ok ⟨requesterId, S⟩ := by
    rw [ReadUserVec, hS]
  have h2 : GetDataMeta st objectId = .ok m := by
    rw [GetDataMeta, hm]
  have h3 : innerProductMod S m.policyVector
      = .error s!"Inner product length mismatch: S={S.length}, P={P.length}" := by
    rw [hP, innerProductMod, if_pos hlen]
  simp only [DecTest, h1, h2, h3]

/-- Concrete mismatch state: `|S| = 5`, `|P| = 4` (the specification's
Scenario C). -/
def exMetaP4 : DataMeta :=
  { objectId := "obj1", ownerId := "own1", policyVector := [1, 1, 1, 1],
    c0 := "c0", addressCipher := "ac", ctKeyPart := "ck" }

def exStMismatch : Ledger :=
  putState
    (putState (fun _ => none) (.svec "user1") (.userVec ⟨"user1", [1, 2, 3, 4, 5]⟩))
    (.data "obj1") (.dataMeta exMetaP4)

/-- Witness for C5 at `exStMismatch` (`|S| = 5`, `|P| = 4`). -/
theorem C5_witness :
    exStMismatch (LKey.svec "user1") = some (.userVec ⟨"user1", [1, 2, 3, 4, 5]⟩)
    ∧ exStMismatch (LKey.data "obj1") = some (.dataMeta exMetaP4)
    ∧ exMetaP4.policyVector = [1, 1, 1, 1]
    ∧ ([1, 2, 3, 4, 5] : List Int).length ≠ ([1, 1, 1, 1] : List Int).length
    ∧ DecTest exStMismatch "obj1" "user1" "tx1" "ts1"
        = .error s!"Inner product length mismatch: S={([1, 2, 3, 4, 5] : List Int).length}, P={([1, 1, 1, 1] : List Int).length}" :=
  ⟨by decide, by decide, by decide, by decide,
    C5_dimension_mismatch_fails exStMismatch "obj1" "user1" "tx1" "ts1"
      [1, 2, 3, 4, 5] [1, 1, 1, 1] exMetaP4 (by decide) (by decide) (by decide)
      (by decide)⟩

/-- C10: no operation requires non-empty vectors: with empty stored `S` and
`P`, `DecTest` succeeds with `innerProduct = 0` and `allowed = true` (the
empty sum). -/
theorem C10_empty_vectors_allowed (st : Ledger)
    (objectId requesterId txId tsISO : String) (m : DataMeta)
    (hS : st (.svec requesterId) = some (.userVec ⟨requesterId, []⟩))
    (hm : st (.data objectId) = some (.dataMeta m))
    (hP : m.policyVector = []) :
    ∃ (st' : Ledger) (a : AccessRecord),
      DecTest st objectId requesterId txId tsISO = .ok (st', a)
      ∧ a.innerProduct = 0 ∧ a.allowed = true := by
  have hz : modP 0 = 0 := by decide
  exact ⟨_, _, DecTest_ok st objectId requesterId txId tsISO [] [] m hS hm hP rfl,
    by simp [decRecord, hz], by simp [decRecord, hz]⟩

/-- Witness for C10 at the concrete state `exStEmpty`. -/
theorem C10_witness :
    exStEmpty (LKey.svec "user1") = some (.userVec ⟨"user1", []⟩)
    ∧ exStEmpty (LKey.data "obj1") = some (.dataMeta exMetaEmpty)
    ∧ exMetaEmpty.policyVector = []
    ∧ (∃ (st' : Ledger) (a : AccessRecord),
        DecTest exStEmpty "obj1" "user1" "tx1" "ts1" = .ok (st', a)
        ∧ a.innerProduct = 0 ∧ a.allowed = true) :=
  ⟨by decide, by decide, by decide,
    C10_empty_vectors_allowed exStEmpty "obj1" "user1" "tx1" "ts1" exMetaEmpty
      (by decide) (by decide) (by decide)⟩

/-- C7: two sequential successful `DecTest` calls for the same
`(objectId, requesterId)` with distinct transaction ids append two distinct
access records under distinct transaction-id-qualified keys, and after each
call the latest pointer holds content identical to the record just appended
(both writes of one call use the same record value). -/
theorem C7_two_sequential_decisions (st : Ledger)
    (objectId requesterId tx1 ts1 tx2 ts2 : String) (S P : List Int)
    (m : DataMeta)
    (hS : st (.svec requesterId) = some (.userVec ⟨requesterId, S⟩))
    (hm : st (.data objectId) = some (.dataMeta m))
    (hP : m.policyVector = P)
    (hlen : S.length = P.length)
    (htx : tx1 ≠ tx2) :
    ∃ (st1 st2 : Ledger) (a1 a2 : AccessRecord),
      DecTest st objectId requesterId tx1 ts1 = .ok (st1, a1)
      ∧ DecTest st1 objectId requesterId tx2 ts2 = .ok (st2, a2)
      ∧ LKey.access objectId requesterId tx1 ≠ LKey.access objectId requesterId tx2
      ∧ a1 ≠ a2
      ∧ st1 (.access objectId requesterId tx1) = some (.accessRec a1)
      ∧ st1 (.accessLast objectId requesterId) = some (.accessRec a1)
      ∧ st2 (.access objectId requesterId tx1) = some (.accessRec a1)
      ∧ st2 (.access objectId requesterId tx2) = some (.accessRec a2)
      ∧ st2 (.accessLast objectId requesterId) = some (.accessRec a2) := by
  have hd1 := DecTest_ok st objectId requesterId tx1 ts1 S P m hS hm hP hlen
  have hS1 : (putState
      (putState st (.access objectId requesterId tx1)
        (.accessRec (decRecord objectId requesterId tx1 ts1 S P)))
      (.accessLast objectId requesterId)
      (.accessRec (decRecord objectId requesterId tx1 ts1 S P)))
      (LKey.svec requesterId) = some (.userVec ⟨requesterId, S⟩) := by
    simp [putState, hS]
  have hm1 : (putState
      (putState st (.access objectId requesterId tx1)
        (.accessRec (decRecord objectId requesterId tx1 ts1 S P)))
      (.accessLast objectId requesterId)
      (.accessRec (decRecord objectId requesterId tx1 ts1 S P)))
      (LKey.data objectId) = some (.dataMeta m) := by
    simp [putState, hm]
  have hd2 := DecTest_ok _ objectId requesterId tx2 ts2 S P m hS1 hm1 hP hlen
  refine ⟨_, _, _, _, hd1, hd2, ?_, ?_, ?_, ?_, ?_, ?_, ?_⟩
  · simp [htx]
  · intro h
    exact htx (congrArg AccessRecord.txId h)
  · simp [putState]
  · simp [putState]
  · simp [putState, htx, Ne.symm htx]
  · simp [putState]
  · simp [putState]

/-- Witness for C7 at `exSt` with transaction ids `"tx1"` and `"tx2"`. -/
theorem C7_witness :
    exSt (LKey.svec "user1") = some (.userVec ⟨"user1", [1, 2]⟩)
    ∧ exSt (LKey.data "obj1") = some (.dataMeta exMeta)
    ∧ exMeta.policyVector = [1, 1]
    ∧ ([1, 2] : List Int).length = ([1, 1] : List Int).length
    ∧ ("tx1" : String) ≠ "tx2"
    ∧ (∃ (st1 st2 : Ledger) (a1 a2 : AccessRecord),
        DecTest exSt "obj1" "user1" "tx1" "ts1" = .ok (st1, a1)
        ∧ DecTest st1 "obj1" "user1" "tx2" "ts2" = .ok (st2, a2)
        ∧ LKey.access "obj1" "user1" "tx1" ≠ LKey.access "obj1" "user1" "tx2"
        ∧ a1 ≠ a2
        ∧ st1 (.access "obj1" "user1" "tx1") = some (.accessRec a1)
        ∧ st1 (.accessLast "obj1" "user1") = some (.accessRec a1)
        ∧ st2 (.access "obj1" "user1" "tx1") = some (.accessRec a1)
        ∧ st2 (.access "obj1" "user1" "tx2") = some (.accessRec a2)
        ∧ st2 (.accessLast "obj1" "user1") = some (.accessRec a2)) :=
  ⟨by decide, by decide, by decide, by decide, by decide,
    C7_two_sequential_decisions exSt "obj1" "user1" "tx1" "ts1" "tx2" "ts2"
      [1, 2] [1, 1] exMeta (by decide) (by decide) (by decide) (by decide)
      (by decide)⟩

theorem insertSorted_length (le : HiddenAttr → HiddenAttr → Bool)
    (a : HiddenAttr) (l : List HiddenAttr) :
    (insertSorted le a l).length = l.length + 1 := by
  induction l with
  | nil => rfl
  | cons b bs ih =>
    rw [insertSorted]
    by_cases hc : le a b
    · rw [if_pos hc, List.length_cons, List.length_cons]
    · rw [if_neg hc, List.length_cons, ih, List.length_cons]

theorem sortAttrs_length (le : String → String → Bool) (attrs : List HiddenAttr) :
    (sortAttrs le attrs).length = attrs.length := by
  induction attrs with
  | nil => rfl
  | cons a as ih =>
    rw [sortAttrs, List.foldr_cons, insertSorted_length, List.length_cons]
    rw [sortAttrs] at ih
    rw [ih]

/-- The comparison vector `CreateUserVec` builds, as a standalone value. -/
def sVec (le : String → String → Bool) (attrs : List HiddenAttr) : List Int :=
  let chValues := (sortAttrs le attrs).map (fun a => modP a.chValue)
  (chValues.foldl (fun acc v => modP (acc * v)) 1)
    :: (pairwiseProducts chValues ++ (chValues ++ [1]))

/-- Explicit success computation of `CreateUserVec` on a non-empty attribute
set. -/
theorem CreateUserVec_ok (le : String → String → Bool) (st : Ledger)
    (userId : String) (attrs : List HiddenAttr) (h : attrs ≠ []) :
    CreateUserVec le st userId attrs
      = .ok (putState st (.uservec userId) (.userVec ⟨userId, sVec le attrs⟩),
          ⟨userId, sVec le attrs⟩) := by
  cases attrs with
  | nil => exact absurd rfl h
  | cons a as => rfl

/-- C3: for every user with `n >= 1` hidden attributes, the vector returned by
`CreateUserVec` has length exactly `2 + n + n(n-1)/2`. -/
theorem C3_user_vector_dimension (le : String → String → Bool) (st : Ledger)
    (userId : String) (attrs : List HiddenAttr) (h : attrs ≠ []) :
    ∃ (st' : Ledger) (r : UserVecRec),
      CreateUserVec le st userId attrs = .ok (st', r)
      ∧ r.S.length = 2 + attrs.length + attrs.length * (attrs.length - 1) / 2 := by
  refine ⟨_, _, CreateUserVec_ok le st userId attrs h, ?_⟩
  show (sVec le attrs).length = _
  rw [sVec]
  simp only [List.length_cons, List.length_append, List.length_nil,
    List.length_map, pairwiseProducts_length, sortAttrs_length,
    Nat.choose_two_right]
  set n := attrs.length
  set k := n * (n - 1) / 2
  omega

/-- Witness for C3 with two concrete attributes (`n = 2`, length `5`). -/
theorem C3_witness :
    ([⟨"u", "c0", 1000, "r0", "aa1"⟩, ⟨"u", "c1", 1001, "r1", "aa1"⟩] :
        List HiddenAttr) ≠ []
    ∧ (∃ (st' : Ledger) (r : UserVecRec),
        CreateUserVec lexLe (fun _ => none) "u"
            [⟨"u", "c0", 1000, "r0", "aa1"⟩, ⟨"u", "c1", 1001, "r1", "aa1"⟩]
          = .ok (st', r)
        ∧ r.S.length = 2 + ([⟨"u", "c0", 1000, "r0", "aa1"⟩,
              ⟨"u", "c1", 1001, "r1", "aa1"⟩] : List HiddenAttr).length
            + ([⟨"u", "c0", 1000, "r0", "aa1"⟩,
              ⟨"u", "c1", 1001, "r1", "aa1"⟩] : List HiddenAttr).length
              * (([⟨"u", "c0", 1000, "r0", "aa1"⟩,
              ⟨"u", "c1", 1001, "r1", "aa1"⟩] : List HiddenAttr).length - 1) / 2) :=
  ⟨by decide,
    C3_user_vector_dimension lexLe (fun _ => none) "u"
      [⟨"u", "c0", 1000, "r0", "aa1"⟩, ⟨"u", "c1", 1001, "r1", "aa1"⟩]
      (by decide)⟩

/-- The vector the loops build is exactly the specification's comparison
vector over the sorted normalized attribute values. -/
theorem sVec_eq_specCompareVector (le : String → String → Bool)
    (attrs : List HiddenAttr) :
    sVec le attrs
      = specCompareVector ((sortAttrs le attrs).map (fun a => modP a.chValue)) := by
  rw [sVec, specCompareVector, specPairs_eq_pairwiseProducts, prodAll_eq]

/-- C2: for every user with `n >= 1` hidden attributes, `CreateUserVec` builds
`S` as the concatenation of the field product of all normalized `chValues`,
the `C(n,2)` pairwise products in canonical index order, the `n` singles in
index order, and a trailing `1`; concretely, `chValues` `1000`, `1001` under
categories `c0 < c1` give `S = [normalize(1000*1001), normalize(1000*1001),
normalize(1000), normalize(1001), 1]`, and a single `chValue` `ch0` gives
`S = [ch0, ch0, 1]`. -/
theorem C2_user_vector_structure (le : String → String → Bool) (st : Ledger)
    (userId : String) (attrs : List HiddenAttr) (h : attrs ≠ []) :
    (∃ st' : Ledger,
      CreateUserVec le st userId attrs
        = .ok (st', ⟨userId,
            specCompareVector ((sortAttrs le attrs).map (fun a => modP a.chValue))⟩))
    ∧ (CreateUserVec lexLe (fun _ => none) "u"
          [⟨"u", "c0", 1000, "r0", "aa1"⟩, ⟨"u", "c1", 1001, "r1", "aa1"⟩]).map (·.2)
        = .ok ⟨"u", [modP (1000 * 1001), modP (1000 * 1001), modP 1000, modP 1001, 1]⟩
    ∧ (CreateUserVec lexLe (fun _ => none) "u" [⟨"u", "c0", 7, "r0", "aa1"⟩]).map (·.2)
        = .ok ⟨"u", [modP 7, modP 7, 1]⟩ := by
  refine ⟨?_, by decide, by decide⟩
  refine ⟨putState st (.uservec userId)
    (.userVec ⟨userId,
      specCompareVector ((sortAttrs le attrs).map (fun a => modP a.chValue))⟩), ?_⟩
  rw [CreateUserVec_ok le st userId attrs h, sVec_eq_specCompareVector]

/-- Witness for C2 with two concrete attributes. -/
theorem C2_witness :
    ([⟨"u", "cA", 10, "r0", "aa1"⟩, ⟨"u", "cB", 20, "r1", "aa1"⟩] :
        List HiddenAttr) ≠ []
    ∧ ((∃ st' : Ledger,
        CreateUserVec lexLe (fun _ => none) "w"
            [⟨"u", "cA", 10, "r0", "aa1"⟩, ⟨"u", "cB", 20, "r1", "aa1"⟩]
          = .ok (st', ⟨"w",
              specCompareVector ((sortAttrs lexLe
                  [⟨"u", "cA", 10, "r0", "aa1"⟩, ⟨"u", "cB", 20, "r1", "aa1"⟩]).map
                (fun a => modP a.chValue))⟩))
      ∧ (CreateUserVec lexLe (fun _ => none) "u"
            [⟨"u", "c0", 1000, "r0", "aa1"⟩, ⟨"u", "c1", 1001, "r1", "aa1"⟩]).map (·.2)
          = .ok ⟨"u", [modP (1000 * 1001), modP (1000 * 1001), modP 1000, modP 1001, 1]⟩
      ∧ (CreateUserVec lexLe (fun _ => none) "u" [⟨"u", "c0", 7, "r0", "aa1"⟩]).map (·.2)
          = .ok ⟨"u", [modP 7, modP 7, 1]⟩) :=
  ⟨by decide,
    C2_user_vector_structure lexLe (fun _ => none) "w"
      [⟨"u", "cA", 10, "r0", "aa1"⟩, ⟨"u", "cB", 20, "r1", "aa1"⟩] (by decide)⟩

/-- C4 (claimed: the sort is ordinary lexicographic string order).  The source
sorts with `a.category.localeCompare(b.category)`, a locale-sensitive,
environment-dependent comparison.  At categories `"B"` and `"a"`,
ordinary lexicographic (code-unit) order puts `"B"` first, while the default
ICU root collation modelled by `icuRootLe` puts `"a"` first, and the two
comparator choices produce different comparison vectors. -/
theorem C4_localeCompare_not_lexicographic :
    sortAttrs lexLe [⟨"u", "B", 3, "r", "aa"⟩, ⟨"u", "a", 2, "r", "aa"⟩]
        = [⟨"u", "B", 3, "r", "aa"⟩, ⟨"u", "a", 2, "r", "aa"⟩]
    ∧ sortAttrs icuRootLe [⟨"u", "B", 3, "r", "aa"⟩, ⟨"u", "a", 2, "r", "aa"⟩]
        = [⟨"u", "a", 2, "r", "aa"⟩, ⟨"u", "B", 3, "r", "aa"⟩]
    ∧ (CreateUserVec lexLe (fun _ => none) "u"
          [⟨"u", "B", 3, "r", "aa"⟩, ⟨"u", "a", 2, "r", "aa"⟩]).map (·.2)
        ≠ (CreateUserVec icuRootLe (fun _ => none) "u"
          [⟨"u", "B", 3, "r", "aa"⟩, ⟨"u", "a", 2, "r", "aa"⟩]).map (·.2) := by
  refine ⟨by decide, by decide, by decide⟩

end EDDAC
